import Mathlib

/-
Verification of the Jingle converter GUI logic of
src/Jingle/SCJingleConverter/mainwindow.cpp (OpenSteamController).

The handlers of MainWindow are embedded as pure functions.  The external
collaborators (the `Composition` class and the `SCSerial` transport) are not
part of the given source; their constants (`EEPROM_HDR_NUM_BYTES`,
`MAX_EEPROM_BYTES`, `MAX_NUM_COMPS`) and per-composition values
(`getMemUsage()`, the outcome of `parse()` and `download()`) therefore appear
as parameters of the model, and a composition is represented by the data the
handlers actually consult.  Machine `uint32_t` arithmetic is `Nat` reduced
modulo 2^32.
-/

/-- Truncation to `uint32_t`: C++ unsigned 32-bit arithmetic reduces mod 2^32. -/
def u32 (n : Nat) : Nat := n % 4294967296

/-- The clear command sent by `on_playJinglePushButton_clicked`
(mainwindow.cpp line 123). -/
def clearCmd : String := "jingle clear\n"

/-- The response expected for the clear command, built as in the source:
`cmd + "\rJingle data cleared successfully.\n\r"` (line 124). -/
def clearResp : String := clearCmd ++ "\rJingle data cleared successfully.\n\r"

/-- The play command sent after a successful download (line 141). -/
def playCmd : String := "jingle play 0\n"

/-- The response expected for the play command, built as in the source:
`cmd + "\rJingle play started successfully.\n\r"` (line 142). -/
def playResp : String := playCmd ++ "\rJingle play started successfully.\n\r"

/-- Test `listStarts p s`: decides whether `p` is an initial segment of `s`
(character lists). -/
def listStarts : List Char → List Char → Bool
  | [], _ => true
  | _ :: _, [] => false
  | a :: as, b :: bs => a == b && listStarts as bs

/-- Modelled from the spec: `SCSerial::send(command, expectedResponse)` is
absent from the given source.  Per the spec it writes the command, reads the
device response and "succeeds only if the response starts with
expectedResponsePrefix"; the handler treats a nonzero return as failure.
`sendFails respond cmd expected = true` means the send reported an error. -/
def sendFails (respond : String → String) (cmd expected : String) : Bool :=
  ! listStarts expected.data (respond cmd).data

/-- One wire-level operation the play handler performs on the serial
transport: a framed command with its expected response, or the binary Jingle
payload write performed by `Composition::download`. -/
inductive SerialOp where
  | sendCmd (cmd expected : String) : SerialOp
  | writePayload : SerialOp
deriving DecidableEq

/-- State visible to `on_playJinglePushButton_clicked`:
the composition set is the list of the compositions' `getMemUsage()` values
(the only datum of a composition the handler consults), plus the selected
row, the outcome of `serial.open()`, the two `Composition` capacity
constants, the device's response function, and the outcome of
`composition->download(serial, 0)`. -/
structure PlayEnv where
  memUsages : List Nat
  selectedRow : Int
  openOk : Bool
  eepromHdrBytes : Nat
  maxEepromBytes : Nat
  respond : String → String
  downloadOk : Bool

/-- Model of `MainWindow::getSelectedComposition` (lines 75-85): the current row is
rejected (nullptr, modelled `none`) when `comp_idx > compositions.size()` or
`comp_idx < 0`; otherwise the handler uses `&compositions[comp_idx]`,
modelled as `some` of the index used. -/
def getSelectedComposition (size : Nat) (row : Int) : Option Nat :=
  if row > (size : Int) ∨ row < 0 then none else some row.toNat

/-- Model of `MainWindow::on_playJinglePushButton_clicked` (lines 87-148), returning
the composition set after the handler and the sequence of wire operations
attempted, in order.  Every failing step reports an error to the user and
returns at once; the model follows the source's guards exactly:
empty set, invalid selection, failed `open()`, the capacity check
`EEPROM_HDR_NUM_BYTES + composition->getMemUsage() > MAX_EEPROM_BYTES`
(uint32 arithmetic), the clear command, the download, the play command. -/
def on_playJinglePushButton_clicked (env : PlayEnv) : List Nat × List SerialOp :=
  if env.memUsages.length = 0 then (env.memUsages, [])
  else
    match getSelectedComposition env.memUsages.length env.selectedRow with
    | none => (env.memUsages, [])
    | some idx =>
      if env.openOk = false then (env.memUsages, [])
      else
        let num_bytes := u32 (env.eepromHdrBytes + env.memUsages.getD idx 0)
        if num_bytes > env.maxEepromBytes then (env.memUsages, [])
        else
          if sendFails env.respond clearCmd clearResp then
            (env.memUsages, [SerialOp.sendCmd clearCmd clearResp])
          else
            if env.downloadOk = false then
              (env.memUsages, [SerialOp.sendCmd clearCmd clearResp,
                               SerialOp.writePayload])
            else
              (env.memUsages, [SerialOp.sendCmd clearCmd clearResp,
                               SerialOp.writePayload,
                               SerialOp.sendCmd playCmd playResp])

/-- Model of `MainWindow::on_convertPushButton_clicked` (lines 160-202), restricted to
its effect on the composition set.  `maxNumComps` is
`Composition::MAX_NUM_COMPS`, `parseOk` the outcome of `parse()` on the new
composition.  Returns the set afterwards and whether the add succeeded;
on parse failure the provisionally appended element is `pop_back`ed. -/
def on_convertPushButton_clicked {α : Type} (maxNumComps : Nat)
    (comps : List α) (newComp : α) (parseOk : Bool) : List α × Bool :=
  if comps.length > maxNumComps then (comps, false)
  else
    let comps2 := comps ++ [newComp]
    if parseOk = false then (comps2.dropLast, false)
    else (comps2, true)

/-- Model of `MainWindow::on_mvJingleDownToolButton_clicked` (lines 368-390): after
the `getSelectedComposition` guard, a no-op when `comp_idx + 1 >= size`,
otherwise the source's three assignments
`comp = at(idx); [idx] = [idx+1]; [idx+1] = comp`. -/
def on_mvJingleDownToolButton_clicked {α : Type} [Inhabited α]
    (comps : List α) (row : Int) : List α :=
  match getSelectedComposition comps.length row with
  | none => comps
  | some idx =>
    if idx + 1 ≥ comps.length then comps
    else
      (comps.set idx (comps.getD (idx + 1) default)).set (idx + 1)
        (comps.getD idx default)

/-- Model of `MainWindow::on_mvJingleUpToolButton_clicked` (lines 392-414): after the
`getSelectedComposition` guard, a no-op when `comp_idx == 0`, otherwise the
source's three assignments `comp = at(idx); [idx] = [idx-1]; [idx-1] = comp`. -/
def on_mvJingleUpToolButton_clicked {α : Type} [Inhabited α]
    (comps : List α) (row : Int) : List α :=
  match getSelectedComposition comps.length row with
  | none => comps
  | some idx =>
    if idx = 0 then comps
    else
      (comps.set idx (comps.getD (idx - 1) default)).set (idx - 1)
        (comps.getD idx default)

/-- The `num_bytes` accumulation of `MainWindow::updateMemUsage`
(lines 204-211): start at `Composition::EEPROM_HDR_NUM_BYTES` and add each
composition's `getMemUsage()` in order, in `uint32_t` arithmetic. -/
def updateMemUsage_numBytes (hdrBytes : Nat) (memUsages : List Nat) : Nat :=
  memUsages.foldl (fun acc m => u32 (acc + m)) (u32 hdrBytes)

/-- The progress-bar value of `MainWindow::updateMemUsage` (lines 213-218):
`PROG_BAR_MAX = 100` when `num_bytes >= MAX_EEPROM_BYTES`, otherwise
`PROG_BAR_MAX * num_bytes / MAX_EEPROM_BYTES` in `uint32_t` arithmetic. -/
def updateMemUsage_progress (maxBytes numBytes : Nat) : Nat :=
  if numBytes ≥ maxBytes then 100
  else u32 (100 * numBytes) / maxBytes

/-- Character-list version of `QString::split(sep)` (KeepEmptyParts, the Qt
default), via an accumulator for the current segment. -/
def splitChAux (sep : Char) : List Char → List Char → List (List Char)
  | [], acc => [acc.reverse]
  | c :: cs, acc =>
    if c = sep then acc.reverse :: splitChAux sep cs []
    else splitChAux sep cs (c :: acc)

/-- Model of `QString::split(sep)` on a character list. -/
def splitCh (sep : Char) (l : List Char) : List (List Char) :=
  splitChAux sep l []

/-- The display-label computation of `on_convertPushButton_clicked`
(lines 184-191): `split('/')` and keep `list[list.size()-1]`, then
`split('\\')` and keep the last element, then
`resize(size() - QString(".musicxml").size())`, i.e. keep the first
`length - 9` characters. -/
def convertDisplayLabel (filename : List Char) : List Char :=
  let f1 := (splitCh '/' filename).getLastD []
  let f2 := (splitCh '\\' f1).getLastD []
  f2.take (f2.length - 9)

/-- The character list of `".musicxml"`. -/
def mxExt : List Char := ".musicxml".data

/-- Stated from the claim's words, for comparison with
`convertDisplayLabel`: strip every leading path component — keep the longest
suffix containing neither `'/'` nor `'\\'` — then remove the `".musicxml"`
extension (drop the last 9 characters). -/
def specDisplayLabel (filename : List Char) : List Char :=
  let base := (filename.reverse.takeWhile (fun c => c != '/' && c != '\\')).reverse
  base.take (base.length - 9)

/-- The adjacent swap `[i] ↔ [i+1]` in the write order of
`on_mvJingleDownToolButton_clicked`. -/
def swapAdj {α : Type} [Inhabited α] (l : List α) (i : Nat) : List α :=
  (l.set i (l.getD (i + 1) default)).set (i + 1) (l.getD i default)

/-- A device that answers the clear command with an error line (the
scenario of the spec's failure test) and everything else with an empty
response. -/
def badClearDevice : String → String := fun c =>
  if c = clearCmd then "jingle clear\n\rERROR\n\r" else ""

/-- A device that echoes the expected success response to both protocol
commands. -/
def goodDevice : String → String := fun c =>
  if c = clearCmd then clearResp
  else if c = playCmd then playResp else ""

/-- A concrete play-handler state whose device fails the clear command. -/
def envClearFail : PlayEnv :=
  { memUsages := [1], selectedRow := 0, openOk := true,
    eepromHdrBytes := 10, maxEepromBytes := 1000,
    respond := badClearDevice, downloadOk := true }

/-- A concrete play-handler state where every step succeeds: header 10,
capacity 1000, compositions of 5 and 995 bytes with the 5-byte one
selected.  The aggregate `10 + 5 + 995 = 1010` exceeds the capacity, but
the handler's check looks only at the selected composition. -/
def envFullRun : PlayEnv :=
  { memUsages := [5, 995], selectedRow := 0, openOk := true,
    eepromHdrBytes := 10, maxEepromBytes := 1000,
    respond := goodDevice, downloadOk := true }

/-- A concrete play-handler state whose selected composition alone exceeds
the capacity. -/
def envOverCapacity : PlayEnv :=
  { memUsages := [2000], selectedRow := 0, openOk := true,
    eepromHdrBytes := 10, maxEepromBytes := 1000,
    respond := goodDevice, downloadOk := true }

/-! ### Helper lemmas -/

/-- Folding uint32 addition from a truncated seed equals the truncated total. -/
theorem foldl_u32_add (l : List Nat) : ∀ a : Nat,
    l.foldl (fun acc m => u32 (acc + m)) (u32 a) = u32 (a + l.sum) := by
  induction l with
  | nil => intro a; simp
  | cons m t ih =>
    intro a
    simp only [List.foldl_cons, List.sum_cons]
    show List.foldl _ (u32 (u32 a + m)) t = _
    have h1 : u32 (u32 a + m) = u32 (a + m) := by
      simp [u32, Nat.mod_add_mod]
    rw [h1, ih (a + m)]
    congr 1
    omega

/-- Bounds and exact value of the progress-bar computation, for any
`numBytes` value. -/
theorem progress_bounds (maxBytes numBytes : Nat) :
    updateMemUsage_progress maxBytes numBytes ≤ 100 ∧
    (numBytes ≥ maxBytes → updateMemUsage_progress maxBytes numBytes = 100) ∧
    (numBytes < maxBytes →
      updateMemUsage_progress maxBytes numBytes ≤ 99 ∧
      (100 * numBytes < 4294967296 →
        updateMemUsage_progress maxBytes numBytes =
          100 * numBytes / maxBytes)) := by
  unfold updateMemUsage_progress u32
  by_cases h : numBytes ≥ maxBytes
  · rw [if_pos h]
    exact ⟨le_refl 100, fun _ => rfl, fun hlt => absurd hlt (by omega)⟩
  · rw [if_neg h]
    push_neg at h
    have hm : 0 < maxBytes := by omega
    have h99 : 100 * numBytes % 4294967296 / maxBytes ≤ 99 := by
      have hx := (Nat.div_lt_iff_lt_mul hm).mpr
        (by omega : 100 * numBytes % 4294967296 < 100 * maxBytes)
      omega
    refine ⟨by omega, fun hge => absurd hge (by omega), fun _ => ⟨h99, fun hnof => ?_⟩⟩
    rw [Nat.mod_eq_of_lt hnof]

/-! ### Claim theorems: convert handler, memory accounting, selection guard -/

/-- C4: for every file, the parse-and-add operation is atomic on the
composition set: when `parse()` fails the provisionally appended Composition
is `pop_back`ed and the error flag is reported, so the resulting set equals
the set before the operation. -/
theorem convert_parse_failure_atomic {α : Type} (maxNumComps : Nat)
    (comps : List α) (newComp : α) :
    on_convertPushButton_clicked maxNumComps comps newComp false =
      (comps, false) := by
  unfold on_convertPushButton_clicked
  split
  · rfl
  · simp

/-- C6 (code bug): with `MAX_NUM_COMPS = 2` and a set already holding
exactly 2 compositions, the guard `compositions.size() > MAX_NUM_COMPS`
is false, so the add proceeds and the set grows to `MAX_NUM_COMPS + 1`
elements — the claimed refusal at exactly `MAX_NUM_COMPS` does not happen. -/
theorem convert_capacity_off_by_one :
    ([0, 1] : List Nat).length = 2 ∧
      on_convertPushButton_clicked 2 ([0, 1] : List Nat) 7 true =
        ([0, 1, 7], true) ∧
      ([0, 1, 7] : List Nat).length > 2 := by decide

/-- C7: the quota total equals `EEPROM_HDR_NUM_BYTES` plus the sum of the
members' `getMemUsage()` (in uint32 arithmetic; exactly, absent overflow),
and permuting the composition set leaves the total unchanged. -/
theorem updateMemUsage_numBytes_spec (hdrBytes : Nat) (l l2 : List Nat)
    (hperm : l.Perm l2) :
    updateMemUsage_numBytes hdrBytes l = u32 (hdrBytes + l.sum) ∧
    updateMemUsage_numBytes hdrBytes l2 = updateMemUsage_numBytes hdrBytes l ∧
    (hdrBytes + l.sum < 4294967296 →
      updateMemUsage_numBytes hdrBytes l = hdrBytes + l.sum) := by
  have h1 : updateMemUsage_numBytes hdrBytes l = u32 (hdrBytes + l.sum) :=
    foldl_u32_add l hdrBytes
  have h2 : updateMemUsage_numBytes hdrBytes l2 = u32 (hdrBytes + l2.sum) :=
    foldl_u32_add l2 hdrBytes
  refine ⟨h1, ?_, fun hh => ?_⟩
  · rw [h1, h2, hperm.sum_eq]
  · rw [h1]; simp [u32, Nat.mod_eq_of_lt hh]

/-- Witness for C7 at a concrete permutation. -/
theorem updateMemUsage_numBytes_spec_witness :
    ([1, 2] : List Nat).Perm [2, 1] ∧
      updateMemUsage_numBytes 10 [2, 1] = updateMemUsage_numBytes 10 [1, 2] :=
  ⟨by decide, (updateMemUsage_numBytes_spec 10 [1, 2] [2, 1] (by decide)).2.1⟩

/-- C9 (code bug): the guard of `getSelectedComposition` uses
`comp_idx > compositions.size()` rather than `>=`, so the boundary row
`comp_idx = compositions.size()` is accepted and used to index the vector
one past its end instead of being rejected: with one composition and
current row 1 the function does not return nullptr. -/
theorem getSelectedComposition_boundary_bug :
    getSelectedComposition 1 1 = some 1 ∧ ¬(1 < 1) := by decide

/-- C10: the progress value computed by `updateMemUsage` over the
composition set always lies in `[0, 100]`: it is 100 whenever
`num_bytes ≥ MAX_EEPROM_BYTES`, and otherwise equals
`⌊100 · num_bytes / MAX_EEPROM_BYTES⌋` (exactly so when `100 · num_bytes`
does not overflow uint32), which is at most 99. -/
theorem updateMemUsage_progress_spec (maxBytes hdrBytes : Nat)
    (memUsages : List Nat) :
    updateMemUsage_progress maxBytes (updateMemUsage_numBytes hdrBytes memUsages) ≤ 100 ∧
    (updateMemUsage_numBytes hdrBytes memUsages ≥ maxBytes →
      updateMemUsage_progress maxBytes (updateMemUsage_numBytes hdrBytes memUsages) = 100) ∧
    (updateMemUsage_numBytes hdrBytes memUsages < maxBytes →
      updateMemUsage_progress maxBytes (updateMemUsage_numBytes hdrBytes memUsages) ≤ 99 ∧
      (100 * updateMemUsage_numBytes hdrBytes memUsages < 4294967296 →
        updateMemUsage_progress maxBytes (updateMemUsage_numBytes hdrBytes memUsages) =
          100 * updateMemUsage_numBytes hdrBytes memUsages / maxBytes)) :=
  progress_bounds maxBytes (updateMemUsage_numBytes hdrBytes memUsages)

/-- Witness for C10: header 10 plus one 890-byte composition against a
1000-byte capacity gives progress 100·900/1000. -/
theorem updateMemUsage_progress_spec_witness :
    updateMemUsage_numBytes 10 [890] < 1000 ∧
      100 * updateMemUsage_numBytes 10 [890] < 4294967296 ∧
      updateMemUsage_progress 1000 (updateMemUsage_numBytes 10 [890]) =
        100 * updateMemUsage_numBytes 10 [890] / 1000 :=
  ⟨by decide, by decide,
    ((updateMemUsage_progress_spec 1000 10 [890]).2.2 (by decide)).2 (by decide)⟩

/-! ### Adjacent swap: the common core of the two move handlers -/

theorem swapAdj_cons_succ {α : Type} [Inhabited α] (a : α) (t : List α) (k : Nat) :
    swapAdj (a :: t) (k + 1) = a :: swapAdj t k := by
  simp [swapAdj]

theorem swapAdj_zero {α : Type} [Inhabited α] (a b : α) (t : List α) :
    swapAdj (a :: b :: t) 0 = b :: a :: t := by
  simp [swapAdj]

theorem swapAdj_perm {α : Type} [Inhabited α] :
    ∀ (l : List α) (i : Nat), i + 1 < l.length → (swapAdj l i).Perm l
  | [], i, h => by simp at h
  | [a], i, h => by simp at h
  | a :: b :: t, 0, _ => by rw [swapAdj_zero]; exact List.Perm.swap a b t
  | a :: b :: t, k + 1, h => by
    rw [swapAdj_cons_succ]
    exact (swapAdj_perm (b :: t) k (by simpa using h)).cons a

theorem swapAdj_getD_fst {α : Type} [Inhabited α] :
    ∀ (l : List α) (i : Nat), i + 1 < l.length →
      (swapAdj l i).getD i default = l.getD (i + 1) default
  | [], i, h => by simp at h
  | [a], i, h => by simp at h
  | a :: b :: t, 0, _ => by rw [swapAdj_zero]; simp
  | a :: b :: t, k + 1, h => by
    rw [swapAdj_cons_succ]
    simpa using swapAdj_getD_fst (b :: t) k (by simpa using h)

theorem swapAdj_getD_snd {α : Type} [Inhabited α] :
    ∀ (l : List α) (i : Nat), i + 1 < l.length →
      (swapAdj l i).getD (i + 1) default = l.getD i default
  | [], i, h => by simp at h
  | [a], i, h => by simp at h
  | a :: b :: t, 0, _ => by rw [swapAdj_zero]; simp
  | a :: b :: t, k + 1, h => by
    rw [swapAdj_cons_succ]
    simpa using swapAdj_getD_snd (b :: t) k (by simpa using h)

theorem swapAdj_getD_other {α : Type} [Inhabited α] :
    ∀ (l : List α) (i j : Nat), j ≠ i → j ≠ i + 1 →
      (swapAdj l i).getD j default = l.getD j default
  | [], i, j, _, _ => by simp [swapAdj]
  | a :: t, 0, 0, h0, _ => absurd rfl h0
  | a :: t, 0, 1, _, h1 => absurd rfl h1
  | a :: t, 0, m + 2, _, _ => by
    cases t with
    | nil => simp [swapAdj]
    | cons b t2 => rw [swapAdj_zero]; simp
  | a :: t, k + 1, 0, _, _ => by rw [swapAdj_cons_succ]; simp
  | a :: t, k + 1, m + 1, h0, h1 => by
    rw [swapAdj_cons_succ]
    simp only [List.getD_cons_succ]
    exact swapAdj_getD_other t k m (fun hh => h0 (by omega)) (fun hh => h1 (by omega))

/-! ### The move handlers reduced to `swapAdj` and the boundary no-ops -/

theorem moveUp_zero {α : Type} [Inhabited α] (l : List α) :
    on_mvJingleUpToolButton_clicked l (0 : Int) = l := by
  unfold on_mvJingleUpToolButton_clicked getSelectedComposition
  have h : ¬((0 : Int) > (l.length : Int) ∨ (0 : Int) < 0) := by omega
  rw [if_neg h]
  simp

theorem moveDown_last {α : Type} [Inhabited α] (l : List α) :
    on_mvJingleDownToolButton_clicked l ((l.length : Int) - 1) = l := by
  unfold on_mvJingleDownToolButton_clicked getSelectedComposition
  by_cases hl : l.length = 0
  · have h : ((l.length : Int) - 1 > (l.length : Int) ∨ (l.length : Int) - 1 < 0) := by
      omega
    rw [if_pos h]
  · have h : ¬((l.length : Int) - 1 > (l.length : Int) ∨ (l.length : Int) - 1 < 0) := by
      omega
    rw [if_neg h]
    have ht : ((l.length : Int) - 1).toNat = l.length - 1 := by omega
    rw [ht]
    have hg : l.length - 1 + 1 ≥ l.length := by omega
    simp [hg]

theorem moveUp_swap {α : Type} [Inhabited α] (l : List α) (k : Nat)
    (h : k + 1 < l.length) :
    on_mvJingleUpToolButton_clicked l (((k + 1 : Nat) : Int)) = swapAdj l k := by
  unfold on_mvJingleUpToolButton_clicked getSelectedComposition
  have hc : ¬(((k + 1 : Nat) : Int) > (l.length : Int) ∨ ((k + 1 : Nat) : Int) < 0) := by
    omega
  rw [if_neg hc]
  have ht : (((k + 1 : Nat) : Int)).toNat = k + 1 := by omega
  rw [ht]
  have hk : ¬(k + 1 = 0) := by omega
  simp only [hk, if_false, Nat.add_sub_cancel]
  unfold swapAdj
  rw [List.set_comm _ _ l (by omega : k + 1 ≠ k)]

theorem moveDown_swap {α : Type} [Inhabited α] (l : List α) (k : Nat)
    (h : k + 1 < l.length) :
    on_mvJingleDownToolButton_clicked l ((k : Int)) = swapAdj l k := by
  unfold on_mvJingleDownToolButton_clicked getSelectedComposition
  have hc : ¬(((k : Nat) : Int) > (l.length : Int) ∨ ((k : Nat) : Int) < 0) := by
    omega
  rw [if_neg hc]
  have ht : (((k : Nat) : Int)).toNat = k := by omega
  rw [ht]
  have hk : ¬(k + 1 ≥ l.length) := by omega
  simp only [hk, if_false]
  rfl

/-- C5: `moveUp` at row 0 and `moveDown` at the last row leave the
composition sequence unchanged; for every in-range non-boundary index the
handler swaps the element with its adjacent neighbor, leaves every other
slot (and each element itself) unchanged, and the result is a permutation
of the original sequence. -/
theorem move_handlers_spec {α : Type} [Inhabited α] (l : List α) (idx : Nat) :
    on_mvJingleUpToolButton_clicked l (0 : Int) = l ∧
    on_mvJingleDownToolButton_clicked l ((l.length : Int) - 1) = l ∧
    (0 < idx → idx < l.length →
      ((on_mvJingleUpToolButton_clicked l ((idx : Nat) : Int)).getD (idx - 1) default =
          l.getD idx default ∧
       (on_mvJingleUpToolButton_clicked l ((idx : Nat) : Int)).getD idx default =
          l.getD (idx - 1) default ∧
       (∀ j, j ≠ idx - 1 → j ≠ idx →
         (on_mvJingleUpToolButton_clicked l ((idx : Nat) : Int)).getD j default =
           l.getD j default) ∧
       (on_mvJingleUpToolButton_clicked l ((idx : Nat) : Int)).Perm l)) ∧
    (idx + 1 < l.length →
      ((on_mvJingleDownToolButton_clicked l ((idx : Nat) : Int)).getD (idx + 1) default =
          l.getD idx default ∧
       (on_mvJingleDownToolButton_clicked l ((idx : Nat) : Int)).getD idx default =
          l.getD (idx + 1) default ∧
       (∀ j, j ≠ idx → j ≠ idx + 1 →
         (on_mvJingleDownToolButton_clicked l ((idx : Nat) : Int)).getD j default =
           l.getD j default) ∧
       (on_mvJingleDownToolButton_clicked l ((idx : Nat) : Int)).Perm l)) := by
  refine ⟨moveUp_zero l, moveDown_last l, fun h0 hlen => ?_, fun hlen => ?_⟩
  · obtain ⟨k, rfl⟩ : ∃ k, idx = k + 1 := ⟨idx - 1, by omega⟩
    rw [moveUp_swap l k hlen]
    simp only [Nat.add_sub_cancel]
    exact ⟨swapAdj_getD_fst l k hlen, swapAdj_getD_snd l k hlen,
           fun j hj1 hj2 => swapAdj_getD_other l k j hj1 hj2,
           swapAdj_perm l k hlen⟩
  · rw [moveDown_swap l idx hlen]
    exact ⟨swapAdj_getD_snd l idx hlen, swapAdj_getD_fst l idx hlen,
           fun j hj1 hj2 => swapAdj_getD_other l idx j hj1 hj2,
           swapAdj_perm l idx hlen⟩

/-- Witness for C5 at the concrete sequence `[10, 20, 30]` and index 1. -/
theorem move_handlers_spec_witness :
    0 < 1 ∧ 1 < ([10, 20, 30] : List Nat).length ∧
      (on_mvJingleUpToolButton_clicked ([10, 20, 30] : List Nat) (((1 : Nat) : Int))).getD 0 default =
        ([10, 20, 30] : List Nat).getD 1 default ∧
      1 + 1 < ([10, 20, 30] : List Nat).length ∧
      (on_mvJingleDownToolButton_clicked ([10, 20, 30] : List Nat) (((1 : Nat) : Int))).Perm
        [10, 20, 30] :=
  ⟨by decide, by decide,
    ((move_handlers_spec ([10, 20, 30] : List Nat) 1).2.2.1 (by decide) (by decide)).1,
    by decide,
    ((move_handlers_spec ([10, 20, 30] : List Nat) 1).2.2.2 (by decide)).2.2.2⟩

/-! ### Display label: split-and-keep-last equals longest-separator-free-suffix -/

theorem takeWhile_append_of_all {α : Type} (p : α → Bool) :
    ∀ (xs ys : List α), (∀ x ∈ xs, p x = true) →
      (xs ++ ys).takeWhile p = xs ++ ys.takeWhile p
  | [], _, _ => rfl
  | a :: xs, ys, hall => by
    have ha : p a = true := hall a (by simp)
    simp only [List.cons_append, List.takeWhile_cons, ha, if_true]
    rw [takeWhile_append_of_all p xs ys (fun x hx => hall x (by simp [hx]))]

theorem takeWhile_append_of_stop {α : Type} (p : α → Bool) :
    ∀ (xs ys : List α) (x : α), x ∈ xs → p x = false →
      (xs ++ ys).takeWhile p = xs.takeWhile p
  | [], _, x, hx, _ => absurd hx (by simp)
  | a :: xs, ys, x, hx, hpx => by
    by_cases ha : p a = true
    · simp only [List.cons_append, List.takeWhile_cons, ha, if_true]
      have hxs : x ∈ xs := by
        rcases List.mem_cons.mp hx with h1 | h1
        · subst h1; rw [ha] at hpx; cases hpx
        · exact h1
      rw [takeWhile_append_of_stop p xs ys x hxs hpx]
    · have ha2 : p a = false := by revert ha; cases p a <;> simp
      simp [List.takeWhile_cons, ha2]

theorem takeWhile_eq_self_of_all {α : Type} (p : α → Bool) :
    ∀ l : List α, (∀ x ∈ l, p x = true) → l.takeWhile p = l
  | [], _ => rfl
  | a :: t, h => by
    have ha : p a = true := h a (by simp)
    simp [List.takeWhile_cons, ha,
      takeWhile_eq_self_of_all p t (fun x hx => h x (by simp [hx]))]

theorem takeWhile_and {α : Type} (p q : α → Bool) :
    ∀ l : List α, (l.takeWhile p).takeWhile q = l.takeWhile (fun x => p x && q x)
  | [] => rfl
  | a :: t => by
    cases hp : p a <;> cases hq : q a <;>
      simp [List.takeWhile_cons, hp, hq, takeWhile_and p q t]

theorem splitChAux_ne_nil (sep : Char) :
    ∀ (l acc : List Char), splitChAux sep l acc ≠ []
  | [], acc => by simp [splitChAux]
  | c :: cs, acc => by
    by_cases hc : c = sep <;>
      simp [splitChAux, hc, splitChAux_ne_nil sep cs]

theorem getLastD_of_ne_nil {α : Type} :
    ∀ (l : List α), l ≠ [] → ∀ d1 d2 : α, l.getLastD d1 = l.getLastD d2
  | [], h, _, _ => absurd rfl h
  | _ :: t, _, d1, d2 => by rw [List.getLastD_cons, List.getLastD_cons]

theorem splitChAux_getLastD (sep : Char) :
    ∀ (l acc : List Char),
      (splitChAux sep l acc).getLastD [] =
        if l.any (fun c => c == sep) then
          (l.reverse.takeWhile (fun c => c != sep)).reverse
        else acc.reverse ++ l
  | [], acc => by simp [splitChAux]
  | c :: cs, acc => by
    by_cases hc : c = sep
    · subst hc
      rw [splitChAux]
      rw [if_pos rfl, List.getLastD_cons,
        getLastD_of_ne_nil _ (splitChAux_ne_nil c cs []) acc.reverse [],
        splitChAux_getLastD c cs []]
      have hany : (c :: cs).any (fun x => x == c) = true := by simp
      rw [if_pos hany]
      by_cases hcs : cs.any (fun x => x == c) = true
      · rw [if_pos hcs]
        obtain ⟨x, hxmem, hxeq⟩ := List.any_eq_true.mp hcs
        have hx : x = c := by simpa using hxeq
        subst hx
        have hrev : x ∈ cs.reverse := List.mem_reverse.mpr hxmem
        rw [List.reverse_cons,
          takeWhile_append_of_stop _ cs.reverse [x] x hrev (by simp)]
      · rw [if_neg hcs]
        have hall : ∀ x ∈ cs.reverse, (x != c) = true := by
          intro x hx
          have hmem : x ∈ cs := List.mem_reverse.mp hx
          have : ¬x = c := by
            intro hxc
            exact hcs (List.any_eq_true.mpr ⟨x, hmem, by simp [hxc]⟩)
          simpa using this
        rw [List.reverse_cons, takeWhile_append_of_all _ cs.reverse [c] hall]
        simp [takeWhile_eq_self_of_all _ cs.reverse hall]
    · rw [splitChAux]
      rw [if_neg hc, splitChAux_getLastD sep cs (c :: acc)]
      have hhead : ((c :: cs).any (fun x => x == sep)) = cs.any (fun x => x == sep) := by
        simp [hc]
      rw [hhead]
      by_cases hcs : cs.any (fun x => x == sep) = true
      · rw [if_pos hcs, if_pos hcs]
        obtain ⟨x, hxmem, hxeq⟩ := List.any_eq_true.mp hcs
        have hx : x = sep := by simpa using hxeq
        subst hx
        have hrev : x ∈ cs.reverse := List.mem_reverse.mpr hxmem
        rw [List.reverse_cons,
          takeWhile_append_of_stop _ cs.reverse [c] x hrev (by simp)]
      · rw [if_neg hcs, if_neg hcs]
        simp

theorem splitCh_getLastD (sep : Char) (l : List Char) :
    (splitCh sep l).getLastD [] =
      (l.reverse.takeWhile (fun c => c != sep)).reverse := by
  unfold splitCh
  rw [splitChAux_getLastD sep l []]
  by_cases h : l.any (fun c => c == sep) = true
  · rw [if_pos h]
  · rw [if_neg h]
    have hall : ∀ x ∈ l.reverse, (x != sep) = true := by
      intro x hx
      have hmem : x ∈ l := List.mem_reverse.mp hx
      have : ¬x = sep := by
        intro hxc
        exact h (List.any_eq_true.mpr ⟨x, hmem, by simp [hxc]⟩)
      simpa using this
    rw [takeWhile_eq_self_of_all _ l.reverse hall]
    simp

theorem convertDisplayLabel_eq_spec (l : List Char) :
    convertDisplayLabel l = specDisplayLabel l := by
  simp only [convertDisplayLabel, specDisplayLabel]
  rw [splitCh_getLastD, splitCh_getLastD, List.reverse_reverse, takeWhile_and]

/-- C8: for every added file whose name ends in `".musicxml"`, the display
label computed by `on_convertPushButton_clicked` equals the file name with
every leading path component (segments separated by `'/'` or `'\\'`)
stripped and the `".musicxml"` extension removed, as expressed by
`specDisplayLabel`. -/
theorem display_label_spec (pre : List Char) :
    convertDisplayLabel (pre ++ mxExt) = specDisplayLabel (pre ++ mxExt) :=
  convertDisplayLabel_eq_spec (pre ++ mxExt)

/-! ### The download-and-play protocol run -/

/-- The four possible wire traces of a play-handler run: nothing sent,
clear only (clear failed), clear plus payload write (download failed),
or the full clear, write, play sequence (all succeeded). -/
theorem play_trace_cases (env : PlayEnv) :
    (on_playJinglePushButton_clicked env).2 = [] ∨
    (on_playJinglePushButton_clicked env).2 =
      [SerialOp.sendCmd clearCmd clearResp] ∨
    ((on_playJinglePushButton_clicked env).2 =
        [SerialOp.sendCmd clearCmd clearResp, SerialOp.writePayload] ∧
      sendFails env.respond clearCmd clearResp = false ∧
      env.downloadOk = false) ∨
    ((on_playJinglePushButton_clicked env).2 =
        [SerialOp.sendCmd clearCmd clearResp, SerialOp.writePayload,
         SerialOp.sendCmd playCmd playResp] ∧
      sendFails env.respond clearCmd clearResp = false ∧
      env.downloadOk = true) := by
  simp only [on_playJinglePushButton_clicked]
  repeat' split
  · exact Or.inl rfl
  · exact Or.inl rfl
  · exact Or.inl rfl
  · exact Or.inl rfl
  · exact Or.inr (Or.inl rfl)
  · rename_i hsf hd
    exact Or.inr (Or.inr (Or.inl ⟨rfl, by simpa using hsf, hd⟩))
  · rename_i hsf hd
    exact Or.inr (Or.inr (Or.inr ⟨rfl, by simpa using hsf, by simpa using hd⟩))

/-- The play handler never mutates the composition set. -/
theorem play_comps_unchanged (env : PlayEnv) :
    (on_playJinglePushButton_clicked env).1 = env.memUsages := by
  simp only [on_playJinglePushButton_clicked]
  repeat' split
  all_goals rfl

/-- C1: when the device's response to `"jingle clear\n"` does not match the
expected success response, the play operation reports the failure and
returns immediately: the binary payload write and the `"jingle play 0\n"`
command are never attempted, every wire operation of the run is the single
clear command (no retry), and the composition set is untouched. -/
theorem clear_failure_short_circuits (env : PlayEnv)
    (h : sendFails env.respond clearCmd clearResp = true) :
    SerialOp.writePayload ∉ (on_playJinglePushButton_clicked env).2 ∧
    SerialOp.sendCmd playCmd playResp ∉ (on_playJinglePushButton_clicked env).2 ∧
    (∀ op ∈ (on_playJinglePushButton_clicked env).2,
      op = SerialOp.sendCmd clearCmd clearResp) ∧
    (on_playJinglePushButton_clicked env).1 = env.memUsages := by
  refine ⟨?_, ?_, ?_, play_comps_unchanged env⟩ <;>
    rcases play_trace_cases env with ht | ht | ⟨ht, hsf, hdl⟩ | ⟨ht, hsf, hdl⟩ <;>
      first
        | (simp [h] at hsf)
        | (rw [ht]; simp; try decide)

/-- Witness for C1: a device answering `"jingle clear\n\rERROR\n\r"` to the
clear command fails the clear step, and no payload write happens. -/
theorem clear_failure_short_circuits_witness :
    sendFails envClearFail.respond clearCmd clearResp = true ∧
      SerialOp.writePayload ∉ (on_playJinglePushButton_clicked envClearFail).2 :=
  ⟨by decide, (clear_failure_short_circuits envClearFail (by decide)).1⟩

/-- C2 (counterexample to the aggregate-budget claim): with
`EEPROM_HDR_NUM_BYTES = 10`, `MAX_EEPROM_BYTES = 1000` and the composition
set `[5, 995]` (aggregate `10 + 5 + 995 = 1010 > 1000`) but the 5-byte
composition selected, the handler's check passes and bytes are sent to the
transport (the clear command and the payload write occur), although the
claimed aggregate budget is exceeded. -/
theorem capacity_aggregate_counterexample :
    envFullRun.eepromHdrBytes + envFullRun.memUsages.sum >
        envFullRun.maxEepromBytes ∧
      (on_playJinglePushButton_clicked envFullRun).2 ≠ [] ∧
      SerialOp.writePayload ∈ (on_playJinglePushButton_clicked envFullRun).2 := by
  decide

/-- C2 (amended): the budget checked before any device write is
`EEPROM_HDR_NUM_BYTES` plus the SELECTED composition's `getMemUsage()`
(uint32 sum), not the sum over the whole set; whenever that budget exceeds
`MAX_EEPROM_BYTES` the download is blocked with a capacity error: no wire
operation happens and the composition set is not mutated. -/
theorem capacity_check_blocks (env : PlayEnv) (idx : Nat)
    (hsel : getSelectedComposition env.memUsages.length env.selectedRow =
      some idx)
    (hover : u32 (env.eepromHdrBytes + env.memUsages.getD idx 0) >
      env.maxEepromBytes) :
    (on_playJinglePushButton_clicked env).2 = [] ∧
    (on_playJinglePushButton_clicked env).1 = env.memUsages := by
  simp only [on_playJinglePushButton_clicked, hsel]
  repeat' split
  all_goals exact ⟨rfl, rfl⟩

/-- Witness for C2's amended theorem: a single 2000-byte composition
against a 1000-byte capacity is blocked with nothing sent. -/
theorem capacity_check_blocks_witness :
    getSelectedComposition envOverCapacity.memUsages.length
        envOverCapacity.selectedRow = some 0 ∧
      u32 (envOverCapacity.eepromHdrBytes +
          envOverCapacity.memUsages.getD 0 0) >
        envOverCapacity.maxEepromBytes ∧
      (on_playJinglePushButton_clicked envOverCapacity).2 = [] :=
  ⟨by decide, by decide,
    (capacity_check_blocks envOverCapacity 0 (by decide) (by decide)).1⟩

/-- C3: the wire commands and expected responses are exactly those of the
protocol table — the clear command is `"jingle clear\n"` with response
`"jingle clear\n\rJingle data cleared successfully.\n\r"`, the play command
is `"jingle play 0\n"` (always slot 0) with response
`"jingle play 0\n\rJingle play started successfully.\n\r"` — every command
a run sends is one of these two pairs, and the play command is sent only
after the payload write has happened and the download succeeded. -/
theorem play_protocol_commands (env : PlayEnv) :
    clearCmd = "jingle clear\n" ∧
    clearResp = "jingle clear\n\rJingle data cleared successfully.\n\r" ∧
    playCmd = "jingle play 0\n" ∧
    playResp = "jingle play 0\n\rJingle play started successfully.\n\r" ∧
    (∀ c e, SerialOp.sendCmd c e ∈ (on_playJinglePushButton_clicked env).2 →
      (c = clearCmd ∧ e = clearResp) ∨ (c = playCmd ∧ e = playResp)) ∧
    (SerialOp.sendCmd playCmd playResp ∈
        (on_playJinglePushButton_clicked env).2 →
      SerialOp.writePayload ∈ (on_playJinglePushButton_clicked env).2 ∧
        env.downloadOk = true) := by
  refine ⟨rfl, by decide, rfl, by decide, ?_, ?_⟩
  · intro c e hmem
    rcases play_trace_cases env with ht | ht | ⟨ht, _, _⟩ | ⟨ht, _, _⟩ <;>
      rw [ht] at hmem <;> simp at hmem <;> tauto
  · intro hmem
    rcases play_trace_cases env with ht | ht | ⟨ht, _, hdl⟩ | ⟨ht, _, hdl⟩ <;>
      rw [ht] at hmem ⊢
    · simp at hmem
    · simp at hmem
      exact absurd hmem.1 (by decide)
    · simp at hmem
      exact absurd hmem.1 (by decide)
    · exact ⟨by simp, hdl⟩

/-- Witness for C3: in the all-success run the play command is on the wire,
preceded by the payload write, with the download reported successful. -/
theorem play_protocol_commands_witness :
    SerialOp.sendCmd playCmd playResp ∈
        (on_playJinglePushButton_clicked envFullRun).2 ∧
      SerialOp.writePayload ∈ (on_playJinglePushButton_clicked envFullRun).2 ∧
      envFullRun.downloadOk = true :=
  ⟨by decide,
    ((play_protocol_commands envFullRun).2.2.2.2.2 (by decide)).1,
    ((play_protocol_commands envFullRun).2.2.2.2.2 (by decide)).2⟩
